import Mathlib

/-!
Verification development for the u-blox `log-client` repository
(`log.cpp`, `log.h`, `log_enum.h`, `log_strings.c`).

The C code is shallowly embedded: the mutable logging context
(`LogContext` plus the globals `gLastLogTime`, `gpFile`, `gLogPath`,
`gCurrentLogFileName`, `gpLogUploadThread`, `gpLogFileUploadData`,
`gpLoggingServer`) becomes explicit state records, and each C function
becomes a Lean function from state (plus the values the environment
supplies: clock readings, socket results, filesystem results) to state.
Machine `unsigned int` values are modelled as `Nat` reduced mod 2^32 at
the points where the C code can overflow; C `int` values are modelled as
`Int`, with the C unsigned-to-int conversion made explicit.
-/

/-- Reduce a natural number to its `unsigned int` (32-bit) value. -/
def u32 (x : Nat) : Nat := x % 4294967296

/-- The value obtained by converting an `unsigned int` (given as a `Nat`
below 2^32) to a C `int`, as the C code does when it stores an unsigned
counter or timestamp into an `int` field. -/
def intOfU32 (x : Nat) : Int :=
  if x < 2147483648 then (x : Int) else (x : Int) - 4294967296

/-- `LogEntry` from `log.h`: `{ unsigned int timestamp; int event; int parameter; }`. -/
structure LogEntry where
  timestamp : Nat
  event : Int
  parameter : Int
deriving Repr, DecidableEq

/-- The all-zero entry; used as the (never-relevant) fallback when reading
a buffer slot by index. -/
def entry0 : LogEntry := ⟨0, 0, 0⟩

/-! Event codes from `log_enum.h` (`EVENT_NONE = 0`, ...). Only the codes
the verified functions mention are named here. -/

/-- `EVENT_LOG_START` (position 3 in the `LogEvent` enum). -/
def EVENT_LOG_START : Int := 3

/-- Modelled from the spec: `EVENT_LOG_TIME_WRAP` is declared in the
application-supplied `log_enum_app.h`, which is not under `src/`; it is an
application event code appended after `EVENT_USER_9` (= 46).  Its exact
value is immaterial to every claim; the next free code is used. -/
def EVENT_LOG_TIME_WRAP : Int := 47

/-- Modelled from the spec: `EVENT_LOG_ENTRIES_OVERWRITTEN` is declared in
the application-supplied `log_enum_app.h`, absent from `src/`.  Exact
value immaterial; a free application code is used. -/
def EVENT_LOG_ENTRIES_OVERWRITTEN : Int := 48

/-- Modelled from the spec: `EVENT_LOG_START_AGAIN` is declared in the
application-supplied `log_enum_app.h`, absent from `src/`.  Exact value
immaterial; a free application code is used. -/
def EVENT_LOG_START_AGAIN : Int := 49

/-- `LOG_VERSION` from `log_enum.h`. -/
def LOG_VERSION : Nat := 0

/-- The magic word `0x123456` tested and written by `initLog`. -/
def MAGIC_WORD : Nat := 0x123456

/-- The state of the log store: the fields of `LogContext` (from `log.h`)
together with the file-scope global `gLastLogTime` from `log.cpp`.
Pointers into the entry array become indices: `nextEmpty` models
`pLogNextEmpty - pLog` and `firstFull` models `pLogFirstFull - pLog`; the
entry array itself (`MAX_NUM_LOG_ENTRIES` slots starting at `pLog`) is the
list `buf`, so `buf.length` plays the role of `MAX_NUM_LOG_ENTRIES`.
The embedding models initialised contexts (`gpContext` non-NULL with
`pLogNextEmpty` pointing into the buffer), so the C code's
`if (gpContext->pLogNextEmpty)` guard is always taken the true way. -/
structure LogState where
  magicWord : Nat
  version : Nat
  buf : List LogEntry
  nextEmpty : Nat
  firstFull : Nat
  numLogItems : Nat
  logEntriesOverwritten : Nat
  lastLogTime : Nat
deriving Repr, DecidableEq

/-- The cursor advance both writers use:
`if (p < pLog + MAX_NUM_LOG_ENTRIES - 1) p++; else p = pLog;`. -/
def advanceIdx (n i : Nat) : Nat := if i < n - 1 then i + 1 else 0

/-- The store-record-and-advance core shared by `LOG` and `LOGX`
(`log.cpp` lines 576-601): write the entry at `pLogNextEmpty`, advance
`pLogNextEmpty`, and either bump `logEntriesOverwritten` (advancing
`pLogFirstFull` as well) if the write cursor collided with the read
cursor, or bump `numLogItems`. -/
def writeEntry (st : LogState) (e : LogEntry) : LogState :=
  let n := st.buf.length
  let buf1 := st.buf.set st.nextEmpty e
  let ne1 := advanceIdx n st.nextEmpty
  if ne1 = st.firstFull then
    { st with buf := buf1, nextEmpty := ne1,
              firstFull := advanceIdx n st.firstFull,
              logEntriesOverwritten := u32 (st.logEntriesOverwritten + 1) }
  else
    { st with buf := buf1, nextEmpty := ne1,
              numLogItems := u32 (st.numLogItems + 1) }

/-- The recursive body of `LOG` (`log.cpp` lines 563-604), with explicit
call-depth fuel standing for the C call stack.  `ts` is the value
`((unsigned int) gLogTime.read_us()) + gLogTimeOffset` the call computes;
the recursive wrap-marker call reads the clock again, modelled as the same
instant.  Besides the final state the function returns the list of entries
physically stored, in store order (a specification ghost output; the C
function returns `void`). -/
def logAux : Nat → LogState → Int → Int → Nat → LogState × List LogEntry
  | 0, st, _, _, _ => (st, [])
  | fuel + 1, st, event, parameter, ts =>
    let (st1, tr1) :=
      if ts < st.lastLogTime then
        logAux fuel { st with lastLogTime := ts }
          EVENT_LOG_TIME_WRAP (intOfU32 ts) ts
      else (st, [])
    let e : LogEntry := ⟨ts, event, parameter⟩
    (writeEntry { st1 with lastLogTime := ts } e, tr1 ++ [e])

/-- `LOG(event, parameter)` from `log.cpp` at clock reading `ts`.  Call
depth 2 suffices for every input (proved below: the inner wrap-marker call
never recurses further). -/
def LOG (st : LogState) (event parameter : Int) (ts : Nat) :
    LogState × List LogEntry :=
  logAux 2 st event parameter ts

/-- `LOGX(event, parameter)` from `log.cpp` lines 609-655: the same body
as `LOG` transcribed separately (the C source duplicates the algorithm),
wrapped in `gLogMutex.lock()/unlock()` which has no effect on the store
state.  Its wrap branch calls `LOG` (not itself), as in the source. -/
def LOGX (st : LogState) (event parameter : Int) (ts : Nat) :
    LogState × List LogEntry :=
  let (st1, tr1) :=
    if ts < st.lastLogTime then
      LOG { st with lastLogTime := ts } EVENT_LOG_TIME_WRAP (intOfU32 ts) ts
    else (st, [])
  let e : LogEntry := ⟨ts, event, parameter⟩
  (writeEntry { st1 with lastLogTime := ts } e, tr1 ++ [e])

/-- The `while` loop of `getLog` (`log.cpp` lines 376-400).  `pItem` is
the local cursor (an index), and the `Nat` argument counts the remaining
output budget, i.e. `numEntries - itemCount`; the loop runs while
`pItem != pLogNextEmpty && itemCount < numEntries`.  Returns the final
store state, the entries written to `pEntries` in order, and the number of
`itemCount` increments performed (the C return value contribution). -/
def getLogGo (st : LogState) (pItem : Nat) : Nat → LogState × List LogEntry × Nat
  | 0 => (st, [], 0)
  | r + 1 =>
    if pItem = st.nextEmpty then (st, [], 0)
    else if 0 < st.logEntriesOverwritten then
      let insert : LogEntry :=
        ⟨(st.buf.getD pItem entry0).timestamp, EVENT_LOG_ENTRIES_OVERWRITTEN,
         intOfU32 st.logEntriesOverwritten⟩
      let st1 : LogState := { st with logEntriesOverwritten := 0 }
      match r with
      | 0 => (st1, [insert], 1)
      | r1 + 1 =>
        let e := st1.buf.getD pItem entry0
        let pItem1 := if st1.buf.length ≤ pItem + 1 then 0 else pItem + 1
        let st2 : LogState := { st1 with
          numLogItems :=
            if 0 < st1.numLogItems then st1.numLogItems - 1 else st1.numLogItems,
          firstFull := pItem1 }
        let (st3, out, cnt) := getLogGo st2 pItem1 r1
        (st3, insert :: e :: out, cnt + 2)
    else
      let e := st.buf.getD pItem entry0
      let pItem1 := if st.buf.length ≤ pItem + 1 then 0 else pItem + 1
      let st2 : LogState := { st with
        numLogItems :=
          if 0 < st.numLogItems then st.numLogItems - 1 else st.numLogItems,
        firstFull := pItem1 }
      let (st3, out, cnt) := getLogGo st2 pItem1 r
      (st3, e :: out, cnt + 1)

/-- `getLog(pEntries, numEntries)` from `log.cpp` lines 367-405 (the mutex
acquisition has no effect on the store state).  A negative C `numEntries`
admits no loop iteration, matching budget `0`. -/
def getLog (st : LogState) (numEntries : Nat) : LogState × List LogEntry × Nat :=
  getLogGo st st.firstFull numEntries

/-- `getNumLogEntries()` from `log.cpp`. -/
def getNumLogEntries (st : LogState) : Nat := st.numLogItems

/-- The drain loop of `writeLog` (`log.cpp` lines 674-691), on the path
where `trylock` succeeded and `gpFile` is open; `file` is the sequence of
entries `fwrite` has appended to the current log file.  The loop runs
while `pLogNextEmpty != pLogFirstFull`; the fuel argument bounds the
iterations (under the store invariant, `buf.length` iterations always
suffice to reach the empty condition, which is proved rather than
assumed). -/
def writeLogGo (st : LogState) (file : List LogEntry) :
    Nat → LogState × List LogEntry
  | 0 => (st, file)
  | fuel + 1 =>
    if st.nextEmpty = st.firstFull then (st, file)
    else
      let (st1, file1) :=
        if 0 < st.logEntriesOverwritten then
          ({ st with logEntriesOverwritten := 0 },
           file ++ [⟨(st.buf.getD st.firstFull entry0).timestamp,
                     EVENT_LOG_ENTRIES_OVERWRITTEN,
                     intOfU32 st.logEntriesOverwritten⟩])
        else (st, file)
      let file2 := file1 ++ [st1.buf.getD st1.firstFull entry0]
      let st2 : LogState := { st1 with
        firstFull := advanceIdx st1.buf.length st1.firstFull,
        numLogItems :=
          if 0 < st1.numLogItems then st1.numLogItems - 1 else st1.numLogItems }
      writeLogGo st2 file2 fuel

/-- `writeLog()` from `log.cpp` lines 669-699, drain path (lock acquired,
file open; when `trylock` fails or no file is open the store is left
untouched, which preserves every invariant trivially). -/
def writeLog (st : LogState) (file : List LogEntry) : LogState × List LogEntry :=
  writeLogGo st file st.buf.length

/-- `initLog(pBuffer)` from `log.cpp` lines 324-351.  The conditional
reinitialisation zeroes the header only (`memset(gpContext, 0,
sizeof(*gpContext))` does not touch the entry array) and resets the
cursors and counts; both paths then reset `gLastLogTime` and the timer and
append one start record via `LOG` — `EVENT_LOG_START` on a fresh start,
`EVENT_LOG_START_AGAIN` otherwise — with parameter `LOG_VERSION`.  `ts` is
the clock reading of that `LOG` call. -/
def initLog (st : LogState) (ts : Nat) : LogState × List LogEntry :=
  let freshStart := st.magicWord ≠ MAGIC_WORD ∨ st.version ≠ LOG_VERSION
  let st1 :=
    if st.magicWord ≠ MAGIC_WORD ∨ st.version ≠ LOG_VERSION then
      { st with magicWord := MAGIC_WORD, version := LOG_VERSION,
                nextEmpty := 0, firstFull := 0,
                numLogItems := 0, logEntriesOverwritten := 0 }
    else st
  let st2 := { st1 with lastLogTime := 0 }
  if freshStart then LOG st2 EVENT_LOG_START (intOfU32 LOG_VERSION) ts
  else LOG st2 EVENT_LOG_START_AGAIN (intOfU32 LOG_VERSION) ts

/-! ### Specification-side views of the ring buffer -/

/-- Circular distance from the read cursor `ff` forward to the write
cursor `ne` in a ring of `n` slots: the number of pending (unread)
records. -/
def ringDist (n ff ne : Nat) : Nat := if ff ≤ ne then ne - ff else n - ff + ne

/-- The pending records of the ring `buf`, oldest first: the slots from
`ff` (inclusive) circularly up to `ne` (exclusive). -/
def ringSlice (buf : List LogEntry) (ff ne : Nat) : List LogEntry :=
  (List.range (ringDist buf.length ff ne)).map
    (fun i => buf.getD ((ff + i) % buf.length) entry0)

/-- The pending records of a store state, oldest first. -/
def contents (st : LogState) : List LogEntry :=
  ringSlice st.buf st.firstFull st.nextEmpty

/-- The header invariant of the log store: a nonempty ring (the header
requires `MAX_NUM_LOG_ENTRIES ≥ 1`) whose slot count fits an
`unsigned int`, both cursors addressing slots, and `numLogItems` equal to
the circular distance from the read cursor to the write cursor. -/
def LogInv (st : LogState) : Prop :=
  0 < st.buf.length ∧ st.buf.length < 4294967296 ∧
  st.nextEmpty < st.buf.length ∧ st.firstFull < st.buf.length ∧
  st.numLogItems = ringDist st.buf.length st.firstFull st.nextEmpty

instance (st : LogState) : Decidable (LogInv st) := by
  unfold LogInv; infer_instance

/-! ### Diagnostic formatter (`printLogItem`, `log.cpp` lines 130-140) -/

/-- The two output shapes of `printLogItem`: the "out of range event"
printf, or the printf whose `%s` argument is the table access
`gLogStrings[pItem->event]` at the given index. -/
inductive LogItemFormat where
  | outOfRange (event : Int)
  | tableEntry (index : Int)
deriving Repr, DecidableEq

/-- `gNumLogStrings` from `log_strings.c`: the base table has 37 fixed
strings plus 10 user strings; the application table appended by
`log_strings_app.h` is not under `src/`, so the base count is used (the
formatter is verified for an arbitrary count where it matters). -/
def gNumLogStrings : Int := 47

/-- `printLogItem(pItem, itemIndex)`: branch selection and, in the second
branch, the index used to read the name table.  The C test is
`pItem->event > gNumLogStrings`. -/
def printLogItem (numStrings : Int) (e : LogEntry) : LogItemFormat :=
  if e.event > numStrings then .outOfRange e.event else .tableEntry e.event

/-- Whether reading `gLogStrings[idx]` in a table of `numStrings` entries
is within bounds. -/
def tableIndexInBounds (numStrings idx : Int) : Prop :=
  0 ≤ idx ∧ idx < numStrings

instance (numStrings idx : Int) : Decidable (tableIndexInBounds numStrings idx) := by
  unfold tableIndexInBounds; infer_instance

/-! ### Upload pipeline (`beginLogFileUpload`, `logFileUploadCallback`,
`stopLogFileUpload`) -/

/-- The allocation state of the upload pipeline: whether each of the three
file-scope pointers `gpLogUploadThread`, `gpLogFileUploadData` and
`gpLoggingServer` is non-NULL. -/
structure UploadState where
  threadRunning : Bool
  uploadData : Bool
  serverAddr : Bool
deriving Repr, DecidableEq

/-- The environment outcomes `beginLogFileUpload` observes: whether the
directory open succeeds, how many regular files other than the current
log file the enumeration finds (`z`), and whether `Thread::start` returns
`osOK`.  (The DNS lookup outcome does not gate any allocation, so it is
not needed.) -/
structure UploadEnv where
  dirOpenOk : Bool
  eligibleFiles : Nat
  threadStartOk : Bool
deriving Repr, DecidableEq

/-- `beginLogFileUpload` (`log.cpp` lines 443-535): returns the C `bool`
result and the new pointer state.  If the upload thread pointer is
non-NULL the call does nothing and reports failure; otherwise, when the
directory opens and eligible files exist, it allocates the server address
(whether or not DNS resolution succeeds), allocates the thread and the
upload-data block, and reports success iff the thread starts (on a start
failure the data block is freed but the thread pointer stays set, as in
the source). -/
def beginLogFileUpload (st : UploadState) (env : UploadEnv) : Bool × UploadState :=
  if st.threadRunning then (false, st)
  else if env.dirOpenOk then
    if 0 < env.eligibleFiles then
      let st1 := { st with serverAddr := true }
      let st2 := { st1 with threadRunning := true, uploadData := true }
      if env.threadStartOk then (true, st2)
      else (false, { st2 with uploadData := false })
    else (true, st)
  else (false, st)

/-- The clear-up the upload thread performs when it completes
(`logFileUploadCallback`, `log.cpp` lines 304-317): it frees and NULLs
`gpLogFileUploadData` and `gpLoggingServer`; it does not touch
`gpLogUploadThread`. -/
def logFileUploadCallbackEnd (st : UploadState) : UploadState :=
  { st with uploadData := false, serverAddr := false }

/-- `stopLogFileUpload` (`log.cpp` lines 538-556): terminates/joins/frees
the thread and frees the data block and server address, NULLing all
three pointers. -/
def stopLogFileUpload (_st : UploadState) : UploadState :=
  ⟨false, false, false⟩

/-- The inner send loop of `logFileUploadCallback` (`log.cpp` lines
264-272): `while (sendCount < size) { z = send(...); if (z > 0)
sendCount += z; }`.  `results` supplies the successive return values of
`pTcpSock->send` (positive = bytes sent; zero or negative = failure,
including the bounded-timeout error).  Returns `some k` when the loop
exits after `k` send calls, and `none` when the supplied results are
exhausted with the loop still running. -/
def sendLoopCalls : List Int → Nat → Nat → Option Nat
  | [], size, sendCount => if size ≤ sendCount then some 0 else none
  | z :: rest, size, sendCount =>
    if size ≤ sendCount then some 0
    else
      (sendLoopCalls rest size
        (if 0 < z then sendCount + z.toNat else sendCount)).map (· + 1)

/-! ### File store (`initLogFile`, `log.cpp` lines 414-440) -/

/-- The file-store globals: whether `gpFile` is non-NULL, and the strings
`gLogPath` and `gCurrentLogFileName`. -/
structure LogFileState where
  fileOpen : Bool
  logPath : String
  currentLogFileName : String
deriving Repr, DecidableEq

/-- `initLogFile(pPath)`: the path-length bound is
`sizeof(gCurrentLogFileName) - LOGGING_MAX_LEN_FILE_NAME`
= (56 + 8 + 1) - 8 = 57, so a path is good iff `strlen(pPath) < 57`;
a good non-NULL path is copied to `gLogPath` with any trailing slash
removed (for an empty path the C code's `gLogPath[x-1]` read is outside
the string; no claim exercises it and `String.endsWith` is false there).
On a good path `gpFile = newLogFile()` runs: `openOk` says whether it
yields a handle and `newName` the `gCurrentLogFileName` it wrote.  The
result is `gpFile != NULL`. -/
def initLogFile (st : LogFileState) (pPath : Option String)
    (openOk : Bool) (newName : String) : Bool × LogFileState :=
  let (goodPath, st1) :=
    match pPath with
    | none => (true, { st with logPath := "" })
    | some p =>
      if p.length < 57 then
        (true, { st with logPath := if p.endsWith "/" then p.dropRight 1 else p })
      else (false, st)
  if goodPath then
    if openOk then
      (true, { st1 with fileOpen := true, currentLogFileName := newName })
    else (false, { st1 with fileOpen := false })
  else (st1.fileOpen, st1)

/-- The synthetic overwritten-count record `getLog` emits at the head of a
pop when `logEntriesOverwritten > 0`: timestamp of the oldest pending
record, event `EVENT_LOG_ENTRIES_OVERWRITTEN`, parameter the counter cast
to `int`. -/
def ovwMarker (st : LogState) : LogEntry :=
  ⟨(st.buf.getD st.firstFull entry0).timestamp, EVENT_LOG_ENTRIES_OVERWRITTEN,
   intOfU32 st.logEntriesOverwritten⟩

/-- Number of synthetic overwritten-count records a `getLog st m` call
emits: one exactly when the counter is positive, records are pending, and
the caller asked for at least one entry. -/
def popMark (st : LogState) (m : Nat) : Nat :=
  if 0 < st.logEntriesOverwritten ∧ st.firstFull ≠ st.nextEmpty ∧ 0 < m
  then 1 else 0

/-- Number of real records a `getLog st m` call copies out. -/
def popKeep (st : LogState) (m : Nat) : Nat :=
  min (m - popMark st m) (ringDist st.buf.length st.firstFull st.nextEmpty)

/-- A freshly initialised store with `n` slots: the state produced by the
cold-start branch of `initLog` before its start-marker append (all slots
zeroed, cursors at the start, counts zero). -/
def freshStore (n : Nat) : LogState :=
  ⟨MAGIC_WORD, LOG_VERSION, List.replicate n entry0, 0, 0, 0, 0, 0⟩

/-- A store whose last logged timestamp is 100, for exercising the
timestamp-wrap path. -/
def wrapStore : LogState := { freshStore 4 with lastLogTime := 100 }

/-- A 57-character path, one over the `initLogFile` length budget. -/
def longPath : String :=
  "aaaaaaaaaaaaaaaaaaaaaaaaaaaaaaaaaaaaaaaaaaaaaaaaaaaaaaaaa"

/-- Five successive appends with event codes 1..5 and increasing
timestamps into a fresh 5-slot store (a store whose usable capacity — the
largest value `numLogItems` can reach — is 4). -/
def c1Store5 : LogState :=
  (LOG (LOG (LOG (LOG (LOG (freshStore 5) 1 0 10).1
    2 0 20).1 3 0 30).1 4 0 40).1 5 0 50).1

/-- The same five appends into a fresh 4-slot store. -/
def c1Store4 : LogState :=
  (LOG (LOG (LOG (LOG (LOG (freshStore 4) 1 0 10).1
    2 0 20).1 3 0 30).1 4 0 40).1 5 0 50).1

/-- Three appends into a fresh 4-slot store: the store now holds
`MAX_NUM_LOG_ENTRIES - 1 = 3` pending records, the most it ever holds. -/
def c2Store3 : LogState :=
  (LOG (LOG (LOG (freshStore 4) 1 0 10).1 2 0 20).1 3 0 30).1

/-! ### Helper lemmas -/

theorem u32_eq_of_lt {x : Nat} (h : x < 4294967296) : u32 x = x :=
  Nat.mod_eq_of_lt h

theorem logAux_succ_of_not_wrap (fuel : Nat) (st : LogState) (e p : Int)
    (ts : Nat) (h : ¬ ts < st.lastLogTime) :
    logAux (fuel + 1) st e p ts =
      (writeEntry { st with lastLogTime := ts } ⟨ts, e, p⟩, [⟨ts, e, p⟩]) := by
  simp [logAux, h]

theorem logAux_succ_of_wrap (fuel : Nat) (st : LogState) (e p : Int)
    (ts : Nat) (h : ts < st.lastLogTime) :
    logAux (fuel + 2) st e p ts =
      (writeEntry
        { writeEntry { st with lastLogTime := ts }
            ⟨ts, EVENT_LOG_TIME_WRAP, intOfU32 ts⟩ with lastLogTime := ts }
        ⟨ts, e, p⟩,
       [⟨ts, EVENT_LOG_TIME_WRAP, intOfU32 ts⟩, ⟨ts, e, p⟩]) := by
  show logAux ((fuel + 1) + 1) st e p ts = _
  rw [logAux]
  rw [logAux_succ_of_not_wrap fuel _ _ _ _ (by simp)]
  simp [h]

theorem logAux_fuel_ge_two (k : Nat) (st : LogState) (e p : Int) (ts : Nat) :
    logAux (k + 2) st e p ts = logAux 2 st e p ts := by
  by_cases h : ts < st.lastLogTime
  · rw [logAux_succ_of_wrap k st e p ts h]
    rw [show (2 : Nat) = 0 + 2 from rfl, logAux_succ_of_wrap 0 st e p ts h]
  · rw [show k + 2 = (k + 1) + 1 from rfl, logAux_succ_of_not_wrap (k+1) st e p ts h]
    rw [show (2 : Nat) = 1 + 1 from rfl, logAux_succ_of_not_wrap 1 st e p ts h]

theorem advanceIdx_lt (n i : Nat) (h : 0 < n) : advanceIdx n i < n := by
  unfold advanceIdx; split <;> omega

theorem advanceIdx_eq_mod (n i : Nat) (h : i < n) :
    advanceIdx n i = (i + 1) % n := by
  unfold advanceIdx; split
  · rw [Nat.mod_eq_of_lt (by omega)]
  · rw [show i + 1 = n by omega, Nat.mod_self]

theorem getLog_advance_eq (n i : Nat) (h : i < n) :
    (if n ≤ i + 1 then 0 else i + 1) = advanceIdx n i := by
  unfold advanceIdx; split <;> split <;> omega

theorem mod_two_cases (a n : Nat) (h : a < 2 * n) :
    a % n = if a < n then a else a - n := by
  split
  · exact Nat.mod_eq_of_lt (by omega)
  · rw [Nat.mod_eq_sub_mod (by omega)]
    exact Nat.mod_eq_of_lt (by omega)

theorem ringDist_self (n ff : Nat) : ringDist n ff ff = 0 := by
  unfold ringDist; simp

theorem ringDist_lt (n ff ne : Nat) (hf : ff < n) (hn : ne < n) :
    ringDist n ff ne < n := by
  unfold ringDist; split <;> omega

theorem ringDist_pos (n ff ne : Nat) (hf : ff < n) (hn : ne < n) (hne : ff ≠ ne) :
    0 < ringDist n ff ne := by
  unfold ringDist; split <;> omega

theorem ringDist_eq_zero_iff (n ff ne : Nat) (hf : ff < n) (hn : ne < n) :
    ringDist n ff ne = 0 ↔ ff = ne := by
  unfold ringDist; split <;> omega

theorem ringDist_advance (n ff ne : Nat) (hf : ff < n) (hn : ne < n)
    (hne : ff ≠ ne) :
    ringDist n ((ff + 1) % n) ne = ringDist n ff ne - 1 := by
  rw [mod_two_cases (ff + 1) n (by omega)]
  unfold ringDist; split <;> split <;> split <;> omega

theorem ringDist_add (n ff ne k : Nat) (hf : ff < n) (hn : ne < n)
    (hk : k ≤ ringDist n ff ne) :
    ringDist n ((ff + k) % n) ne = ringDist n ff ne - k := by
  have hd := ringDist_lt n ff ne hf hn
  rw [mod_two_cases (ff + k) n (by omega)]
  unfold ringDist at hk ⊢; split at hk <;> split <;> split <;> omega

theorem ringSlice_length (buf : List LogEntry) (ff ne : Nat) :
    (ringSlice buf ff ne).length = ringDist buf.length ff ne := by
  simp [ringSlice]

theorem ringSlice_self (buf : List LogEntry) (ff : Nat) :
    ringSlice buf ff ff = [] := by
  simp [ringSlice, ringDist_self]

theorem ringSlice_cons (buf : List LogEntry) (ff ne : Nat)
    (hf : ff < buf.length) (hn : ne < buf.length) (hne : ff ≠ ne) :
    ringSlice buf ff ne =
      buf.getD ff entry0 :: ringSlice buf ((ff + 1) % buf.length) ne := by
  have hpos := ringDist_pos buf.length ff ne hf hn hne
  unfold ringSlice
  rw [ringDist_advance buf.length ff ne hf hn hne]
  rw [show ringDist buf.length ff ne
        = (ringDist buf.length ff ne - 1) + 1 by omega]
  rw [List.range_succ_eq_map, List.map_cons, List.map_map]
  congr 1
  · rw [Nat.add_zero, Nat.mod_eq_of_lt hf]
  · rw [show ringDist buf.length ff ne - 1 + 1 - 1
          = ringDist buf.length ff ne - 1 by omega]
    apply List.map_congr_left
    intro i _
    simp only [Function.comp_apply]
    rw [Nat.mod_add_mod, show ff + 1 + i = ff + (i + 1) by omega]

theorem LogInv_writeEntry (st : LogState) (e : LogEntry) (h : LogInv st) :
    LogInv (writeEntry st e) := by
  obtain ⟨h0, h32, hne, hff, hitems⟩ := h
  have hd := ringDist_lt st.buf.length st.firstFull st.nextEmpty hff hne
  simp only [writeEntry]
  split
  case isTrue hc =>
    refine ⟨by simpa using h0, by simpa using h32, ?_, ?_, ?_⟩
    · simpa using advanceIdx_lt _ _ h0
    · simpa using advanceIdx_lt _ _ h0
    · simp only [List.length_set]
      rw [hitems]
      unfold advanceIdx at hc ⊢
      unfold ringDist at hitems ⊢
      split at hc <;> split_ifs <;> omega
  case isFalse hc =>
    refine ⟨by simpa using h0, by simpa using h32, ?_, by simpa using hff, ?_⟩
    · simpa using advanceIdx_lt _ _ h0
    · simp only [List.length_set]
      rw [u32_eq_of_lt (by omega), hitems]
      unfold advanceIdx at hc ⊢
      unfold ringDist at hitems ⊢
      split at hc <;> split_ifs <;> omega

theorem getLogGo_no_ovw (r : Nat) : ∀ (st : LogState) (pItem : Nat),
    LogInv st → st.logEntriesOverwritten = 0 → pItem = st.firstFull →
    getLogGo st pItem r =
      ({ st with
          firstFull := (st.firstFull +
            min r (ringDist st.buf.length st.firstFull st.nextEmpty)) %
            st.buf.length,
          numLogItems := st.numLogItems -
            min r (ringDist st.buf.length st.firstFull st.nextEmpty) },
       (contents st).take
         (min r (ringDist st.buf.length st.firstFull st.nextEmpty)),
       min r (ringDist st.buf.length st.firstFull st.nextEmpty)) := by
  induction r with
  | zero =>
    intro st pItem h hov hpi
    obtain ⟨h0, h32, hne, hff, hitems⟩ := h
    simp [getLogGo, Nat.mod_eq_of_lt hff]
  | succ r ih =>
    intro st pItem h hov hpi
    obtain ⟨h0, h32, hne, hff, hitems⟩ := h
    subst hpi
    by_cases hc : st.firstFull = st.nextEmpty
    · have hz : ringDist st.buf.length st.firstFull st.nextEmpty = 0 := by
        rw [hc]; exact ringDist_self _ _
      have hmin : min (r + 1)
          (ringDist st.buf.length st.firstFull st.nextEmpty) = 0 := by omega
      simp only [getLogGo]
      rw [if_pos hc, hmin]
      simp [Nat.mod_eq_of_lt hff]
    · have hd := ringDist_pos _ _ _ hff hne hc
      have hnov : ¬ 0 < st.logEntriesOverwritten := by omega
      have hadv : (if st.buf.length ≤ st.firstFull + 1 then 0
          else st.firstFull + 1) = (st.firstFull + 1) % st.buf.length := by
        rw [getLog_advance_eq _ _ hff, advanceIdx_eq_mod _ _ hff]
      have hguard : (if 0 < st.numLogItems then st.numLogItems - 1
          else st.numLogItems) = st.numLogItems - 1 := by
        rw [if_pos (by omega)]
      have hff1lt : (st.firstFull + 1) % st.buf.length < st.buf.length :=
        Nat.mod_lt _ (by omega)
      have hd1 : ringDist st.buf.length ((st.firstFull + 1) % st.buf.length)
          st.nextEmpty = ringDist st.buf.length st.firstFull st.nextEmpty - 1 :=
        ringDist_advance _ _ _ hff hne hc
      have hmin : min (r + 1) (ringDist st.buf.length st.firstFull st.nextEmpty)
          = min r (ringDist st.buf.length st.firstFull st.nextEmpty - 1) + 1 := by
        omega
      have h2 : LogInv { st with numLogItems := st.numLogItems - 1,
                                 firstFull :=
                                   (st.firstFull + 1) % st.buf.length } := by
        refine ⟨h0, h32, hne, hff1lt, ?_⟩
        show st.numLogItems - 1 =
          ringDist st.buf.length ((st.firstFull + 1) % st.buf.length) st.nextEmpty
        rw [hd1]
        omega
      simp only [getLogGo]
      rw [if_neg hc, if_neg hnov]
      simp only [hadv, hguard]
      rw [ih _ _ h2 hov rfl]
      have hcons := ringSlice_cons st.buf st.firstFull st.nextEmpty hff hne hc
      simp only [Prod.mk.injEq, LogState.mk.injEq, contents, true_and, and_true]
      refine ⟨⟨?_, ?_⟩, ?_, ?_⟩
      · rw [hd1, hmin, Nat.mod_add_mod]
        congr 1
        omega
      · rw [hd1, hmin]
        omega
      · rw [hd1, hmin, hcons, List.take_succ_cons]
      · rw [hd1, hmin]

theorem getLogGo_marker (st : LogState) (pItem r1 : Nat)
    (hc : ¬ pItem = st.nextEmpty) (hov : 0 < st.logEntriesOverwritten) :
    getLogGo st pItem (r1 + 2) =
      ((getLogGo { st with logEntriesOverwritten := 0 } pItem (r1 + 1)).1,
       (⟨(st.buf.getD pItem entry0).timestamp, EVENT_LOG_ENTRIES_OVERWRITTEN,
         intOfU32 st.logEntriesOverwritten⟩ : LogEntry) ::
         (getLogGo { st with logEntriesOverwritten := 0 } pItem (r1 + 1)).2.1,
       (getLogGo { st with logEntriesOverwritten := 0 } pItem (r1 + 1)).2.2
         + 1) := by
  have hnov0 : ¬ (0 : Nat) < 0 := by omega
  simp only [getLogGo]
  rw [if_neg hc, if_pos hov, if_neg hc, if_neg hnov0]

theorem getLog_spec (st : LogState) (m : Nat) (h : LogInv st) :
    getLog st m =
      ({ st with
          firstFull := (st.firstFull + popKeep st m) % st.buf.length,
          numLogItems := st.numLogItems - popKeep st m,
          logEntriesOverwritten :=
            if popMark st m = 1 then 0 else st.logEntriesOverwritten },
       (if popMark st m = 1 then [ovwMarker st] else []) ++
         (contents st).take (popKeep st m),
       popMark st m + popKeep st m) := by
  have hInv := h
  obtain ⟨h0, h32, hne, hff, hitems⟩ := h
  simp only [getLog]
  by_cases hov : 0 < st.logEntriesOverwritten
  · by_cases hc : st.firstFull = st.nextEmpty
    · have hz : ringDist st.buf.length st.firstFull st.nextEmpty = 0 := by
        rw [hc]; exact ringDist_self _ _
      have hmrk : popMark st m = 0 := by simp [popMark, hc]
      have hkeep : popKeep st m = 0 := by simp [popKeep, hz]
      rw [hmrk, hkeep]
      simp only [Nat.add_zero, Nat.mod_eq_of_lt hff, Nat.sub_zero,
        List.take_zero, List.append_nil, if_neg (by omega : ¬(0:Nat) = 1)]
      cases m with
      | zero => rfl
      | succ m1 =>
        simp only [getLogGo]
        rw [if_pos hc]
    · by_cases hm : 0 < m
      · have hmrk : popMark st m = 1 := by simp [popMark, hov, hc, hm]
        have hd := ringDist_pos _ _ _ hff hne hc
        cases m with
        | zero => omega
        | succ m1 =>
          cases m1 with
          | zero =>
            have hkeep : popKeep st 1 = 0 := by simp [popKeep, hmrk]
            rw [hmrk, hkeep]
            simp only [getLogGo]
            rw [if_neg hc, if_pos hov]
            simp only [Nat.add_zero, Nat.mod_eq_of_lt hff, Nat.sub_zero,
              List.take_zero, List.append_nil, eq_self_iff_true, if_true,
              ovwMarker]
          | succ m2 =>
            rw [getLogGo_marker st st.firstFull m2 hc hov]
            have h1 : LogInv { st with logEntriesOverwritten := 0 } :=
              ⟨h0, h32, hne, hff, hitems⟩
            rw [getLogGo_no_ovw (m2 + 1)
              { st with logEntriesOverwritten := 0 } st.firstFull h1 rfl rfl]
            have hkeep : popKeep st (m2 + 2) = min (m2 + 1)
                (ringDist st.buf.length st.firstFull st.nextEmpty) := by
              simp [popKeep, hmrk]
            rw [hmrk, hkeep]
            simp only [eq_self_iff_true, if_true, ovwMarker, contents,
              List.singleton_append, Prod.mk.injEq]
            exact ⟨trivial, trivial, by omega⟩
      · have hm0 : m = 0 := by omega
        subst hm0
        have hmrk : popMark st 0 = 0 := by simp [popMark]
        have hkeep : popKeep st 0 = 0 := by simp [popKeep, hmrk]
        rw [hmrk, hkeep]
        simp only [getLogGo, Nat.add_zero, Nat.mod_eq_of_lt hff, Nat.sub_zero,
          List.take_zero, List.append_nil, if_neg (by omega : ¬(0:Nat) = 1)]
  · have hov0 : st.logEntriesOverwritten = 0 := by omega
    have hmrk : popMark st m = 0 := by simp [popMark, hov]
    have hkeep : popKeep st m = min m
        (ringDist st.buf.length st.firstFull st.nextEmpty) := by
      simp [popKeep, hmrk]
    rw [hmrk, hkeep]
    simp only [if_neg (by omega : ¬(0:Nat) = 1), List.nil_append, Nat.zero_add]
    exact getLogGo_no_ovw m st st.firstFull hInv hov0 rfl

theorem LogInv_getLog (st : LogState) (m : Nat) (h : LogInv st) :
    LogInv (getLog st m).1 := by
  rw [getLog_spec st m h]
  obtain ⟨h0, h32, hne, hff, hitems⟩ := h
  have hk : popKeep st m ≤ ringDist st.buf.length st.firstFull st.nextEmpty :=
    Nat.min_le_right _ _
  refine ⟨h0, h32, hne, Nat.mod_lt _ (by omega), ?_⟩
  show st.numLogItems - popKeep st m = ringDist st.buf.length
    ((st.firstFull + popKeep st m) % st.buf.length) st.nextEmpty
  rw [ringDist_add _ _ _ _ hff hne hk]
  omega

theorem LogInv_popStep (st : LogState) (h : LogInv st)
    (hc : st.firstFull ≠ st.nextEmpty) :
    LogInv { st with
      firstFull := advanceIdx st.buf.length st.firstFull,
      numLogItems := if 0 < st.numLogItems then st.numLogItems - 1
                     else st.numLogItems } := by
  obtain ⟨h0, h32, hne, hff, hitems⟩ := h
  have hd := ringDist_pos _ _ _ hff hne hc
  refine ⟨h0, h32, hne, advanceIdx_lt _ _ h0, ?_⟩
  show (if 0 < st.numLogItems then st.numLogItems - 1 else st.numLogItems)
    = ringDist st.buf.length (advanceIdx st.buf.length st.firstFull) st.nextEmpty
  rw [if_pos (by omega), advanceIdx_eq_mod _ _ hff,
      ringDist_advance _ _ _ hff hne hc]
  omega

theorem LogInv_writeLogGo : ∀ (fuel : Nat) (st : LogState)
    (file : List LogEntry), LogInv st → LogInv (writeLogGo st file fuel).1 := by
  intro fuel
  induction fuel with
  | zero => intro st file h; exact h
  | succ f ih =>
    intro st file h
    simp only [writeLogGo]
    by_cases hc : st.nextEmpty = st.firstFull
    · rw [if_pos hc]; exact h
    · rw [if_neg hc]
      by_cases hov : 0 < st.logEntriesOverwritten
      · rw [if_pos hov]
        exact ih _ _ (LogInv_popStep { st with logEntriesOverwritten := 0 }
          h (Ne.symm hc))
      · rw [if_neg hov]
        exact ih _ _ (LogInv_popStep st h (Ne.symm hc))

theorem LogInv_logAux : ∀ (fuel : Nat) (st : LogState) (e p : Int) (ts : Nat),
    LogInv st → LogInv (logAux fuel st e p ts).1 := by
  intro fuel
  induction fuel with
  | zero => intro st e p ts h; exact h
  | succ f ih =>
    intro st e p ts h
    simp only [logAux]
    by_cases hw : ts < st.lastLogTime
    · rw [if_pos hw]
      have h1 := ih { st with lastLogTime := ts }
        EVENT_LOG_TIME_WRAP (intOfU32 ts) ts h
      rcases hE : logAux f { st with lastLogTime := ts }
        EVENT_LOG_TIME_WRAP (intOfU32 ts) ts with ⟨st1, tr1⟩
      rw [hE] at h1
      exact LogInv_writeEntry _ _ h1
    · rw [if_neg hw]
      exact LogInv_writeEntry _ _ h

theorem writeEntry_ovw_iff (st : LogState) (e : LogEntry) (h : LogInv st) :
    (writeEntry st e).logEntriesOverwritten ≠ st.logEntriesOverwritten
      ↔ st.numLogItems = st.buf.length - 1 := by
  obtain ⟨h0, h32, hne, hff, hitems⟩ := h
  simp only [writeEntry]
  split
  case isTrue hcol =>
    constructor
    · intro _
      rw [hitems]
      revert hcol
      unfold advanceIdx ringDist
      split_ifs <;> omega
    · intro _
      show u32 (st.logEntriesOverwritten + 1) ≠ st.logEntriesOverwritten
      unfold u32
      omega
  case isFalse hcol =>
    constructor
    · intro hne'
      exact absurd rfl hne'
    · intro hitems'
      exfalso
      apply hcol
      have hD : ringDist st.buf.length st.firstFull st.nextEmpty
          = st.buf.length - 1 := by omega
      unfold ringDist at hD
      unfold advanceIdx
      split_ifs at hD ⊢ <;> omega

theorem contents_empty_iff (st : LogState) (h : LogInv st) :
    contents st = [] ↔ st.firstFull = st.nextEmpty ∧ st.numLogItems = 0 := by
  obtain ⟨h0, h32, hne, hff, hitems⟩ := h
  constructor
  · intro hcon
    have hlen : (contents st).length = 0 := by rw [hcon]; rfl
    rw [contents, ringSlice_length] at hlen
    have hfe := (ringDist_eq_zero_iff _ _ _ hff hne).1 hlen
    exact ⟨hfe, by omega⟩
  · rintro ⟨hfe, _⟩
    rw [contents, hfe, ringSlice_self]

theorem numLogItems_le (st : LogState) (h : LogInv st) :
    st.numLogItems ≤ st.buf.length - 1 := by
  obtain ⟨h0, h32, hne, hff, hitems⟩ := h
  have := ringDist_lt st.buf.length st.firstFull st.nextEmpty hff hne
  omega

theorem LOG_eq (st : LogState) (e p : Int) (ts : Nat) :
    LOG st e p ts =
      if ts < st.lastLogTime then
        (writeEntry { writeEntry { st with lastLogTime := ts }
            ⟨ts, EVENT_LOG_TIME_WRAP, intOfU32 ts⟩ with lastLogTime := ts }
          ⟨ts, e, p⟩,
         [⟨ts, EVENT_LOG_TIME_WRAP, intOfU32 ts⟩, ⟨ts, e, p⟩])
      else
        (writeEntry { st with lastLogTime := ts } ⟨ts, e, p⟩, [⟨ts, e, p⟩]) := by
  by_cases h : ts < st.lastLogTime
  · rw [if_pos h]
    show logAux (0 + 2) st e p ts = _
    exact logAux_succ_of_wrap 0 st e p ts h
  · rw [if_neg h]
    show logAux (1 + 1) st e p ts = _
    exact logAux_succ_of_not_wrap 1 st e p ts h

theorem LOGX_eq_LOG_aux (st : LogState) (e p : Int) (ts : Nat) :
    LOGX st e p ts = LOG st e p ts := by
  by_cases h : ts < st.lastLogTime
  · simp only [LOGX]
    rw [if_pos h, LOG_eq { st with lastLogTime := ts } EVENT_LOG_TIME_WRAP
        (intOfU32 ts) ts,
      if_neg (show ¬ ts < ({ st with lastLogTime := ts } :
        LogState).lastLogTime by simp),
      LOG_eq st e p ts, if_pos h]
    rfl
  · simp only [LOGX]
    rw [if_neg h, LOG_eq st e p ts, if_neg h]
    rfl

/-! ### Claim theorems -/

set_option maxHeartbeats 1000000 in
/-- C1 (amended): the spec scenario holds for a ring of five slots, i.e.
when "capacity 4" is read as the store's usable capacity (the largest
pending count, `MAX_NUM_LOG_ENTRIES - 1`): after appending event codes
1..5 with increasing timestamps, `numLogItems = 4` and
`logEntriesOverwritten = 1`, and the first pop of up to 10 entries
returns exactly 5 entries — a synthetic OVERWRITTEN marker with
parameter 1 followed by the records with event codes 2, 3, 4, 5. -/
theorem claimC1 :
    c1Store5.numLogItems = 4 ∧ c1Store5.logEntriesOverwritten = 1 ∧
    (getLog c1Store5 10).2.1.map (fun e => e.event) =
      [EVENT_LOG_ENTRIES_OVERWRITTEN, 2, 3, 4, 5] ∧
    (getLog c1Store5 10).2.1.head? =
      some ⟨20, EVENT_LOG_ENTRIES_OVERWRITTEN, 1⟩ ∧
    (getLog c1Store5 10).2.2 = 5 := by decide

set_option maxHeartbeats 1000000 in
/-- C1 counterexample: with capacity read as the claim's data model fixes
it — `capacity = MAX_NUM_LOG_ENTRIES = 4` ring slots — the same five
appends leave `numLogItems = 3` and `logEntriesOverwritten = 2` (not 4
and 1), and the first pop of up to 10 entries returns 4 entries (not 5),
refuting the claim as stated. -/
theorem claimC1_counterexample :
    c1Store4.buf.length = 4 ∧
    c1Store4.numLogItems = 3 ∧ c1Store4.logEntriesOverwritten = 2 ∧
    ¬ (c1Store4.numLogItems = 4 ∧ c1Store4.logEntriesOverwritten = 1) ∧
    (getLog c1Store4 10).2.2 = 4 := by decide

set_option maxHeartbeats 1000000 in
/-- C2 counterexample: an append overwrites the oldest record (bumping
`logEntriesOverwritten`) when `numLogItems = capacity - 1 = 3`, i.e. at a
pending count strictly below `capacity = MAX_NUM_LOG_ENTRIES = 4`,
refuting "an append overwrites the oldest record exactly when
pending_count == capacity". -/
theorem claimC2_counterexample :
    c2Store3.buf.length = 4 ∧ c2Store3.numLogItems = 3 ∧
    c2Store3.numLogItems ≠ c2Store3.buf.length ∧
    (LOG c2Store3 4 0 40).1.logEntriesOverwritten
      = c2Store3.logEntriesOverwritten + 1 := by decide

/-- C2 (amended): every operation on the log store — append via `LOG` or
`LOGX`, pop via `getLog`, drain via `writeLog` — preserves the header
invariant (`numLogItems` equals the circular read-to-write distance, both
cursors address slots in `[0, capacity)` and advance circularly);
`0 ≤ pending_count ≤ capacity - 1` (so also `≤ capacity`, but the bound
`capacity` itself is never reached); the buffer is logically empty iff the
cursors are equal and `numLogItems = 0`; and an append overwrites the
oldest record exactly when `numLogItems = capacity - 1` (not `capacity`
as claimed). -/
theorem claimC2 (st : LogState) (e p : Int) (ts : Nat) (m : Nat)
    (file : List LogEntry) (en : LogEntry) (h : LogInv st) :
    LogInv (LOG st e p ts).1 ∧
    LogInv (LOGX st e p ts).1 ∧
    LogInv (getLog st m).1 ∧
    LogInv (writeLog st file).1 ∧
    st.numLogItems ≤ st.buf.length - 1 ∧
    (contents st = [] ↔ st.firstFull = st.nextEmpty ∧ st.numLogItems = 0) ∧
    ((writeEntry st en).logEntriesOverwritten ≠ st.logEntriesOverwritten
      ↔ st.numLogItems = st.buf.length - 1) := by
  refine ⟨LogInv_logAux 2 st e p ts h, ?_, LogInv_getLog st m h,
    LogInv_writeLogGo _ st file h, numLogItems_le st h,
    contents_empty_iff st h, writeEntry_ovw_iff st en h⟩
  rw [LOGX_eq_LOG_aux]
  exact LogInv_logAux 2 st e p ts h

set_option maxHeartbeats 1000000 in
/-- C2 witness: the invariant holds for a concrete reachable store and is
preserved by a concrete append. -/
theorem claimC2_witness :
    LogInv c2Store3 ∧ LogInv (LOG c2Store3 4 0 40).1 :=
  ⟨by decide, (claimC2 c2Store3 4 0 40 2 [] entry0 (by decide)).1⟩

/-- C3: when the clock reading `ts` presented to `LOG` is below the last
logged timestamp, the call stores exactly one synthetic wrap-marker
record (event `EVENT_LOG_TIME_WRAP`, parameter the new smaller timestamp
cast to `int`) immediately before the offending record, and the recursion
terminates after one level: any call-stack budget of two or more frames
computes the same result, because `gLastLogTime` is updated to the
smaller value before the recursive call, so the marker's own wrap check
passes. -/
theorem claimC3 (st : LogState) (e p : Int) (ts : Nat)
    (h : ts < st.lastLogTime) :
    LOG st e p ts =
      (writeEntry { writeEntry { st with lastLogTime := ts }
          ⟨ts, EVENT_LOG_TIME_WRAP, intOfU32 ts⟩ with lastLogTime := ts }
        ⟨ts, e, p⟩,
       [⟨ts, EVENT_LOG_TIME_WRAP, intOfU32 ts⟩, ⟨ts, e, p⟩]) ∧
    (∀ fuel : Nat, logAux (fuel + 2) st e p ts = LOG st e p ts) := by
  constructor
  · rw [LOG_eq, if_pos h]
  · intro fuel
    exact logAux_fuel_ge_two fuel st e p ts

/-- C3 witness: a concrete wrapped timestamp (40 after 100). -/
theorem claimC3_witness :
    40 < wrapStore.lastLogTime ∧
    LOG wrapStore 5 7 40 =
      (writeEntry { writeEntry { wrapStore with lastLogTime := 40 }
          ⟨40, EVENT_LOG_TIME_WRAP, intOfU32 40⟩ with lastLogTime := 40 }
        ⟨40, 5, 7⟩,
       [⟨40, EVENT_LOG_TIME_WRAP, intOfU32 40⟩, ⟨40, 5, 7⟩]) :=
  ⟨by decide, (claimC3 wrapStore 5 7 40 (by decide)).1⟩

/-- C4: `getLog st m` behaves exactly as claimed: while records remain
and fewer than `m` entries have been produced, it first (when
`logEntriesOverwritten > 0`) emits one synthetic
`EVENT_LOG_ENTRIES_OVERWRITTEN` record carrying the counter as its
parameter and resets the counter to zero, then copies out the oldest
pending records in FIFO order with their values unchanged (a prefix of
`contents st`), advancing the read cursor circularly and decrementing
`numLogItems` once per copied record, and the returned count equals the
number of records written out. -/
theorem claimC4 (st : LogState) (m : Nat) (h : LogInv st) :
    getLog st m =
      ({ st with
          firstFull := (st.firstFull + popKeep st m) % st.buf.length,
          numLogItems := st.numLogItems - popKeep st m,
          logEntriesOverwritten :=
            if popMark st m = 1 then 0 else st.logEntriesOverwritten },
       (if popMark st m = 1 then [ovwMarker st] else []) ++
         (contents st).take (popKeep st m),
       popMark st m + popKeep st m) ∧
    (getLog st m).2.2 = (getLog st m).2.1.length := by
  have hs := getLog_spec st m h
  refine ⟨hs, ?_⟩
  rw [hs]
  obtain ⟨h0, h32, hne, hff, hitems⟩ := h
  have hk : popKeep st m ≤ ringDist st.buf.length st.firstFull st.nextEmpty :=
    Nat.min_le_right _ _
  have hmrk : popMark st m = 0 ∨ popMark st m = 1 := by
    unfold popMark
    split
    · right; rfl
    · left; rfl
  simp only [List.length_append, List.length_take, contents, ringSlice_length]
  rcases hmrk with hm0 | hm1
  · simp [hm0]
    omega
  · simp [hm1]
    omega

set_option maxHeartbeats 1000000 in
/-- C4 witness: the pop characterisation applied to a concrete store. -/
theorem claimC4_witness :
    LogInv c1Store5 ∧
    (getLog c1Store5 3).2.2 = (getLog c1Store5 3).2.1.length :=
  ⟨by decide, (claimC4 c1Store5 3 (by decide)).2⟩

/-- C5: evidence for the code bug.  In the per-file send loop of
`logFileUploadCallback`, a send that keeps failing (returning the
timeout/error code, e.g. -3001) is retried forever — for every number of
send attempts the loop has neither completed nor aborted (`none`), so a
timed-out send never aborts the file transfer; and after a single failed
send the loop calls send again (two calls to finish an 8-byte chunk when
the results are [fail, 8]), i.e. a failed send is retried rather than
aborting the transfer as the claim states. -/
theorem claimC5 :
    (∀ k : Nat, sendLoopCalls (List.replicate k (-3001)) 8 0 = none) ∧
    sendLoopCalls [-3001, 8] 8 0 = some 2 := by
  constructor
  · intro k
    induction k with
    | zero => rfl
    | succ k ih =>
      rw [List.replicate_succ]
      simp only [sendLoopCalls]
      rw [if_neg (by omega : ¬ (8:Nat) ≤ 0),
        if_neg (by decide : ¬ (0:Int) < -3001), ih]
      rfl
  · decide

set_option maxHeartbeats 400000 in
/-- C6 counterexample: on a warm start (matching magic word and version),
`initLog` does not leave the cursors and `numLogItems` unchanged — it
appends a start record, advancing the write cursor and bumping the
pending count. -/
theorem claimC6_counterexample :
    (freshStore 4).magicWord = MAGIC_WORD ∧
    (freshStore 4).version = LOG_VERSION ∧
    (initLog (freshStore 4) 5).1.numLogItems ≠ (freshStore 4).numLogItems ∧
    (initLog (freshStore 4) 5).1.nextEmpty ≠ (freshStore 4).nextEmpty := by
  decide

/-- C6 (amended): when the stored magic word and version match the
expected constants, `initLog` preserves the cursors, counts and buffer
content except that it then appends exactly one `EVENT_LOG_START_AGAIN`
record (parameter `LOG_VERSION`) through the ordinary `LOG` path (warm
start); when either does not match, it reinitialises the header — cursors
to the start of the buffer, counts zero, magic word and version set — and
then appends one `EVENT_LOG_START` record the same way (cold start). -/
theorem claimC6 (st : LogState) (ts : Nat) :
    (st.magicWord = MAGIC_WORD ∧ st.version = LOG_VERSION →
      initLog st ts = LOG { st with lastLogTime := 0 }
        EVENT_LOG_START_AGAIN (intOfU32 LOG_VERSION) ts) ∧
    (¬ (st.magicWord = MAGIC_WORD ∧ st.version = LOG_VERSION) →
      initLog st ts = LOG { st with magicWord := MAGIC_WORD,
                                    version := LOG_VERSION, nextEmpty := 0,
                                    firstFull := 0, numLogItems := 0,
                                    logEntriesOverwritten := 0,
                                    lastLogTime := 0 }
        EVENT_LOG_START (intOfU32 LOG_VERSION) ts) := by
  constructor
  · rintro ⟨hm, hv⟩
    have hcond : ¬ (st.magicWord ≠ MAGIC_WORD ∨ st.version ≠ LOG_VERSION) := by
      push_neg
      exact ⟨hm, hv⟩
    simp only [initLog]
    rw [if_neg hcond, if_neg hcond]
  · intro hnm
    have hcond : st.magicWord ≠ MAGIC_WORD ∨ st.version ≠ LOG_VERSION := by
      by_cases h1 : st.magicWord = MAGIC_WORD
      · right
        intro h2
        exact hnm ⟨h1, h2⟩
      · left
        exact h1
    simp only [initLog]
    rw [if_pos hcond, if_pos hcond]

/-- C6 witness: warm start on a concrete matching region. -/
theorem claimC6_witness :
    (freshStore 4).magicWord = MAGIC_WORD ∧
    (freshStore 4).version = LOG_VERSION ∧
    initLog (freshStore 4) 5 =
      LOG { freshStore 4 with lastLogTime := 0 } EVENT_LOG_START_AGAIN
        (intOfU32 LOG_VERSION) 5 :=
  ⟨rfl, rfl, (claimC6 (freshStore 4) 5).1 ⟨rfl, rfl⟩⟩

set_option maxHeartbeats 400000 in
/-- C7 counterexample: a concrete run refuting "after the background task
completes ... a subsequent start request may succeed without an
intervening stop_pipeline call": from an idle pipeline a start succeeds
and sets the thread pointer; the completing callback frees the
upload-data and server-address resources but not the thread pointer, so
the next start request is rejected (returns false) even though the task
has completed. -/
theorem claimC7_counterexample :
    (beginLogFileUpload ⟨false, false, false⟩ ⟨true, 2, true⟩).1 = true ∧
    (beginLogFileUpload ⟨false, false, false⟩
      ⟨true, 2, true⟩).2.threadRunning = true ∧
    (logFileUploadCallbackEnd
      (beginLogFileUpload ⟨false, false, false⟩
        ⟨true, 2, true⟩).2).threadRunning = true ∧
    (beginLogFileUpload
      (logFileUploadCallbackEnd
        (beginLogFileUpload ⟨false, false, false⟩ ⟨true, 2, true⟩).2)
      ⟨true, 2, true⟩).1 = false := by decide

/-- C7 (amended): the pipeline runs at most one background task at a time
— a start request while the thread pointer is set is a no-op reported to
the caller as failure — and when the background task completes it
releases the server-address and upload-context resources but not the
thread handle, so the pipeline still appears busy: a subsequent start
request fails until `stopLogFileUpload` clears all three resources. -/
theorem claimC7 (st : UploadState) (env : UploadEnv)
    (h : st.threadRunning = true) :
    beginLogFileUpload st env = (false, st) ∧
    logFileUploadCallbackEnd st =
      { st with uploadData := false, serverAddr := false } ∧
    (logFileUploadCallbackEnd st).threadRunning = st.threadRunning ∧
    beginLogFileUpload (logFileUploadCallbackEnd st) env =
      (false, logFileUploadCallbackEnd st) ∧
    stopLogFileUpload st = ⟨false, false, false⟩ := by
  refine ⟨?_, rfl, rfl, ?_, rfl⟩
  · simp [beginLogFileUpload, h]
  · simp [beginLogFileUpload, logFileUploadCallbackEnd, h]

/-- C7 witness: the no-op start on a concrete busy pipeline. -/
theorem claimC7_witness :
    (⟨true, true, true⟩ : UploadState).threadRunning = true ∧
    beginLogFileUpload ⟨true, true, true⟩ ⟨true, 2, true⟩ =
      (false, ⟨true, true, true⟩) :=
  ⟨rfl, (claimC7 ⟨true, true, true⟩ ⟨true, 2, true⟩ rfl).1⟩

/-- C8: the best-effort writer `LOG` and the mutex-guarded writer `LOGX`
perform identical transformations of the log-store state: for every
starting state and every (event, parameter, timestamp) input they produce
the same stored records, cursor advances and counter updates — they
differ only in lock acquisition, which the store state does not see. -/
theorem claimC8 (st : LogState) (e p : Int) (ts : Nat) :
    LOGX st e p ts = LOG st e p ts :=
  LOGX_eq_LOG_aux st e p ts

/-- C9: evidence for the code bug.  `printLogItem` tests
`event > gNumLogStrings`, so the event code equal to `gNumLogStrings`
and every negative event code are NOT reported as "out of range": they
fall into the branch that reads `gLogStrings[event]`, an out-of-bounds
table access (index 47 of a 47-entry table; index -1), contradicting the
claim that all codes outside the valid range are reported as out of
range and the table access is always in bounds. -/
theorem claimC9 :
    printLogItem gNumLogStrings ⟨0, gNumLogStrings, 0⟩
      = LogItemFormat.tableEntry gNumLogStrings ∧
    ¬ tableIndexInBounds gNumLogStrings gNumLogStrings ∧
    printLogItem gNumLogStrings ⟨0, -1, 0⟩ = LogItemFormat.tableEntry (-1) ∧
    ¬ tableIndexInBounds gNumLogStrings (-1) ∧
    printLogItem gNumLogStrings ⟨0, 48, 0⟩ = LogItemFormat.outOfRange 48 := by
  decide

/-- C10: `initLogFile`'s boolean result reports whether a log-file handle
is open after the call, not whether this call succeeded: when the path
exceeds the length limit (57 or more characters including the
terminator-budget check `strlen < 57`), no file operation is performed,
the stored path is unchanged, and the call returns exactly the previous
state of `gpFile` — true when a log file is already open from an earlier
successful call, false only when no handle is open. -/
theorem claimC10 (st : LogFileState) (p : String) (openOk : Bool)
    (newName : String) (h : 57 ≤ p.length) :
    initLogFile st (some p) openOk newName = (st.fileOpen, st) := by
  simp only [initLogFile]
  rw [if_neg (by omega : ¬ p.length < 57)]
  rfl

/-- C10 witness: a 57-character path with a file already open returns
true and changes nothing. -/
theorem claimC10_witness :
    57 ≤ longPath.length ∧
    initLogFile ⟨true, "x", "y"⟩ (some longPath) false "z" =
      ((⟨true, "x", "y"⟩ : LogFileState).fileOpen, ⟨true, "x", "y"⟩) :=
  ⟨by decide, claimC10 ⟨true, "x", "y"⟩ longPath false "z" (by decide)⟩
